import Mathlib

/-!
Shallow embedding of the rotary sample-holder controller repository.

Source files embedded:
* `src/app/src/main/python/arduino_controller.py` — the command-protocol
  client (`ArduinoController`): byte-at-a-time response reading with an
  idle-attempt budget, result dispatch of a decoded response, and the
  property accessors for `port`/`baud`/`timeout`.
* `src/sample_holder_controller.py` — the controller
  (`SampleHolderController`): software motor-position model, derived
  sample index, and the operations `enable`, `home`, `move`, `step`,
  `goto`, `offset`.

Modelling conventions: Python numbers are embedded as `ℤ`/`ℚ` with exact
arithmetic (Python's float division `SPR / samples` becomes `ℚ` division;
Python's `%` on a positive modulus becomes `Int.emod` on integers and
`pymod` on rationals).  The serial channel is a finite list of reads,
each read yielding either one byte (`some c`) or nothing (`none`, a
timed-out read); reads past the end of the list yield nothing, modelling
a channel that has gone silent.  Every firmware invocation performed by a
controller operation is recorded in an I/O trace (`List Cmd`): each such
invocation writes the framed command bytes to the channel and reads the
response, so an empty trace is the same as "no I/O performed".
-/

namespace ArduinoController

/-- Tail phase of the `read_response` loop of
`arduino_controller.py` lines 218–228 once the channel has gone silent:
every further read yields no byte, so each iteration only increments the
attempt counter (and the count of reads performed) until the remaining
attempt budget `rem = read_attempts - attempts` is exhausted.  Returns
`(buffer, attempts, reads_performed)`. -/
def readIdle : Nat → List Char → Nat → Nat → List Char × Nat × Nat
  | 0, resp, attempts, reads => (resp, attempts, reads)
  | rem + 1, resp, attempts, reads => readIdle rem resp (attempts + 1) (reads + 1)

/-- The `while curr != b'}' and attempts < self.read_attempts` loop of
`read_response` (`arduino_controller.py` lines 213–228).  `stream` is the
sequence of pending reads of the serial channel (`none` = a read that
timed out and returned no byte); once `stream` is exhausted the channel
is silent and the loop drains its attempt budget via `readIdle`.
Returns `(buffer, attempts, reads_performed)`.  Each read that yields a
byte appends it to the buffer and leaves `attempts` unchanged (the
counter is never reset); each read that yields nothing increments
`attempts`; the loop stops as soon as a `'}'` byte is read or
`attempts` reaches the `limit` (`read_attempts`). -/
def readLoop (limit : Nat) : List (Option Char) → Nat → List Char → Nat → List Char × Nat × Nat
  | [], attempts, resp, reads =>
      if attempts < limit then readIdle (limit - attempts) resp attempts reads
      else (resp, attempts, reads)
  | none :: rest, attempts, resp, reads =>
      if attempts < limit then readLoop limit rest (attempts + 1) resp (reads + 1)
      else (resp, attempts, reads)
  | some c :: rest, attempts, resp, reads =>
      if attempts < limit then
        if c = '}' then (resp ++ [c], attempts, reads + 1)
        else readLoop limit rest attempts (resp ++ [c]) (reads + 1)
      else (resp, attempts, reads)

/-- Embedding of `ArduinoController.read_response`
(`arduino_controller.py` lines 206–234): runs the read loop with an
empty buffer and zero attempts; if the loop ended with
`attempts == read_attempts` the read timed out and the partial buffer is
raised (`RuntimeError('Data read timed out with response: ...')`),
otherwise the accumulated buffer is returned (to be JSON-decoded by the
caller). -/
def read_response (limit : Nat) (stream : List (Option Char)) : Except (List Char) (List Char) :=
  let r := readLoop limit stream 0 [] 0
  if r.2.1 = limit then .error r.1 else .ok r.1

/-- Number of `read()` calls performed by one `read_response` cycle. -/
def readsPerformed (limit : Nat) (stream : List (Option Char)) : Nat :=
  (readLoop limit stream 0 [] 0).2.2

/-- Final value of the idle-attempt counter of one `read_response` cycle. -/
def idleAttempts (limit : Nat) (stream : List (Option Char)) : Nat :=
  (readLoop limit stream 0 [] 0).2.1

/-- Specification-side predicate: does a `'}'` byte arrive before the
`limit`-th idle read?  (Reads past the end of the stream are idle.)
`read_response` succeeds exactly on these streams. -/
def hasCloseWithin : Nat → List (Option Char) → Bool
  | 0, _ => false
  | _ + 1, [] => false
  | limit + 1, none :: rest => hasCloseWithin limit rest
  | limit + 1, some c :: rest =>
      if c = '}' then true else hasCloseWithin (limit + 1) rest

/-- Decoded JSON response object consumed by `ArduinoController.run`
(`arduino_controller.py` lines 185–203): required keys `status` and
`command`, optional keys `response` and `id` (absence of an optional key
is `none`).  The payload type is a parameter, matching the arbitrary
JSON values the firmware may return. -/
structure DecodedResponse (α : Type) where
  status : String
  command : String
  response : Option α
  id : Option α
  deriving DecidableEq

/-- Value returned by a successful `ArduinoController.run`: a dictionary
of both payloads, a single payload, or `None`. -/
inductive RunValue (α : Type) where
  | both (r i : α)
  | single (v : α)
  | nothing
  deriving DecidableEq

/-- Result-dispatch tail of `ArduinoController.run`
(`arduino_controller.py` lines 185–203), applied to the decoded
response: a `status` of `'error'` raises
`RuntimeError('Command failed: <command>')`; otherwise the dispatch is
on which of the keys `response` / `id` are present — both as a pair,
one alone as its value, neither as `None`. -/
def run_result {α : Type} (resp : DecodedResponse α) : Except String (RunValue α) :=
  if resp.status = "error" then
    .error ("Command failed: " ++ resp.command)
  else
    match resp.response, resp.id with
    | some r, some i => .ok (.both r i)
    | some r, none => .ok (.single r)
    | none, some i => .ok (.single i)
    | none, none => .ok .nothing

/-- Connection parameters stored by `ArduinoController.__init__`
(`arduino_controller.py` lines 39–63): the private fields `__port`,
`__baud`, `__timeout`. -/
structure ConnectionParams where
  port : String
  baud : Int
  timeout : Int
  deriving DecidableEq

/-- Embedding of the constructor's parameter storage
(`arduino_controller.py` lines 56–58). -/
def mkController (port : String) (baud timeout : Int) : ConnectionParams :=
  { port := port, baud := baud, timeout := timeout }

/-- Embedding of the `timeout` property getter
(`arduino_controller.py` lines 122–124): the source returns
`self.__baud`. -/
def timeout_property (c : ConnectionParams) : Int :=
  c.baud

/-- Embedding of the `timeout` property setter
(`arduino_controller.py` lines 126–135), restricted to its effect on the
stored parameters while disconnected: stores the new value into
`self.__timeout`. -/
def set_timeout (c : ConnectionParams) (t : Int) : ConnectionParams :=
  { c with timeout := t }

end ArduinoController

/-- Python's `%` on rationals with the semantics of `x % y` for floats
with `y > 0` (`sample_holder_controller.py` line 144): the result is
`x - y * floor(x / y)`, lying in `[0, y)`. -/
def pymod (x y : ℚ) : ℚ := x - y * ⌊x / y⌋

/-- State of a `SampleHolderController`
(`sample_holder_controller.py` lines 51–72) after connecting: the
number of sample spaces (`self.samples`), the steps per revolution
(`self.SPR`, a number once set at connect time), and the software motor
position (`self.position`, `None` before the first `enable`/`home`). -/
structure SampleHolder where
  samples : Int
  spr : ℚ
  position : Option ℚ
  deriving DecidableEq

/-- Firmware commands invoked over the protocol.  Each constructor
records one `run[ ... ]` invocation, i.e. one write of the framed
command bytes followed by one response-read cycle. -/
inductive Cmd where
  | enableCmd
  | getPosCmd
  | homeCmd
  | isEnabledCmd
  | moveCmd (steps : ℚ)
  | offsetCmd (steps : ℚ)
  deriving DecidableEq

/-- Errors raised by controller operations: `NotEnabledError`
(`RuntimeError('Motor is not enabled.')`), `InvalidSampleError`
(`ValueError('Invalid sample number. ...')`), and the `TypeError` Python
raises when arithmetic is attempted on a `None` position. -/
inductive CtrlErr where
  | notEnabled
  | invalidSample
  | noPosition
  deriving DecidableEq

/-- Device-side environment for one controller operation, assuming every
protocol invocation succeeds: whether the firmware reports the motor as
enabled (the textual response `'1'` to `is_enabled`), and the position
value the firmware reports to `get_pos`. -/
structure Env where
  enabled : Bool
  reportedPos : ℚ
  deriving DecidableEq

/-- Derived sample index formula of the `sample` property
(`sample_holder_controller.py` lines 75–86) for a known position:
`s_width = SPR / samples`, `offset = s_width / 2`,
`floor((position + offset) / s_width)`.  Note the source applies no
final `mod samples`. -/
def sampleIdx (p spr : ℚ) (samples : Int) : Int :=
  ⌊(p + (spr / (samples : ℚ)) / 2) / (spr / (samples : ℚ))⌋

/-- Modelled from the spec: the derived-sample-index formula as the
specification states it (`floor((position + sector_width/2) /
sector_width) mod sample_count`), to be compared with the source's
`sampleIdx`, which lacks the final `mod`. -/
def sampleIdxSpec (p spr : ℚ) (samples : Int) : Int :=
  ⌊(p + (spr / (samples : ℚ)) / 2) / (spr / (samples : ℚ))⌋ % samples

namespace SampleHolderController

/-- Embedding of the `sample` property
(`sample_holder_controller.py` lines 75–86): `None` when the position is
unknown, otherwise `sampleIdx`. -/
def sample (st : SampleHolder) : Option Int :=
  match st.position with
  | none => none
  | some p => some (sampleIdx p st.spr st.samples)

/-- Embedding of `enable` (`sample_holder_controller.py` lines 111–113):
invokes `enable`, then `get_pos`, adopting the reported value as the
motor position unchecked. -/
def enable (env : Env) (st : SampleHolder) : Except CtrlErr SampleHolder × List Cmd :=
  (.ok { st with position := some env.reportedPos }, [.enableCmd, .getPosCmd])

/-- Embedding of `home` (`sample_holder_controller.py` lines 116–118):
invokes `home`, then sets the motor position to 0. -/
def home (env : Env) (st : SampleHolder) : Except CtrlErr SampleHolder × List Cmd :=
  (.ok { st with position := some 0 }, [.homeCmd])

/-- Embedding of `is_enabled` (`sample_holder_controller.py` lines
121–128): invokes `is_enabled` (one protocol invocation, hence I/O) and
interprets the response `'1'` as `True`. -/
def is_enabled (env : Env) (st : SampleHolder) : Bool × List Cmd :=
  (env.enabled, [.isEnabledCmd])

/-- Embedding of `move` (`sample_holder_controller.py` lines 131–144):
first queries `is_enabled` (an I/O-performing invocation), raising
`NotEnabledError` if it reports disabled; then invokes `move` with the
raw step count; then updates the position to `(position + steps) % SPR`
(a `TypeError` if the position is `None`, after the move command has
already been sent). -/
def move (env : Env) (steps : ℚ) (st : SampleHolder) : Except CtrlErr SampleHolder × List Cmd :=
  if (is_enabled env st).1 = false then
    (.error .notEnabled, [.isEnabledCmd])
  else
    match st.position with
    | none => (.error .noPosition, [.isEnabledCmd, .moveCmd steps])
    | some p =>
        (.ok { st with position := some (pymod (p + steps) st.spr) },
         [.isEnabledCmd, .moveCmd steps])

/-- Embedding of `step` (`sample_holder_controller.py` lines 147–154):
converts sample steps to motor steps via `num * (SPR / samples)`
(rational division, not necessarily integral) and delegates to
`move`. -/
def step (env : Env) (num : ℚ) (st : SampleHolder) : Except CtrlErr SampleHolder × List Cmd :=
  move env (num * (st.spr / (st.samples : ℚ))) st

/-- Step distance selected by `goto`
(`sample_holder_controller.py` lines 168–172): the forward distance
`(num - current_sample) % samples`, replaced by `steps - samples`
whenever it exceeds `samples / 2` (true division, so the comparison is
over ℚ). -/
def gotoSteps (cur num m : Int) : Int :=
  let d := (num - cur) % m
  if (m : ℚ) / 2 < (d : ℚ) then d - m else d

/-- Embedding of `goto` (`sample_holder_controller.py` lines 157–174):
raises `InvalidSampleError` before any I/O when `num < 0` or
`num > samples`; otherwise computes the shortest-path step distance from
the current derived sample and delegates to `step`. -/
def goto (env : Env) (num : Int) (st : SampleHolder) : Except CtrlErr SampleHolder × List Cmd :=
  if num < 0 ∨ st.samples < num then
    (.error .invalidSample, [])
  else
    match sample st with
    | none => (.error .noPosition, [])
    | some cur => step env ((gotoSteps cur num st.samples : Int) : ℚ) st

/-- Embedding of `offset` (`sample_holder_controller.py` lines 177–188):
records the current position, calls `move(num)`, then invokes the
firmware `offset` command with argument `-num`, then restores the
recorded position. -/
def offset (env : Env) (num : ℚ) (st : SampleHolder) : Except CtrlErr SampleHolder × List Cmd :=
  match move env num st with
  | (.ok st1, tr) => (.ok { st1 with position := st.position }, tr ++ [.offsetCmd (-num)])
  | (.error e, tr) => (.error e, tr)

/-- One public mutating operation of the controller, for stating
invariants over operation sequences. -/
inductive Op where
  | enableOp
  | homeOp
  | moveOp (steps : ℚ)
  | stepOp (num : ℚ)
  | gotoOp (num : Int)
  | offsetOp (num : ℚ)
  deriving DecidableEq

/-- Runs one operation. -/
def runOp (env : Env) (op : Op) (st : SampleHolder) : Except CtrlErr SampleHolder × List Cmd :=
  match op with
  | .enableOp => enable env st
  | .homeOp => home env st
  | .moveOp s => move env s st
  | .stepOp n => step env n st
  | .gotoOp n => goto env n st
  | .offsetOp n => offset env n st

/-- Runs a sequence of operations, stopping at the first error. -/
def runOps (env : Env) : List Op → SampleHolder → Except CtrlErr SampleHolder
  | [], st => .ok st
  | op :: rest, st =>
      match (runOp env op st).1 with
      | .ok st1 => runOps env rest st1
      | .error e => .error e

/-- Range-and-definedness invariant on the controller state claimed by
the specification's data model: positive sample count, positive SPR, and
a known motor position always inside `[0, SPR)`. -/
def PosInv (st : SampleHolder) : Prop :=
  0 < st.samples ∧ 0 < st.spr ∧ ∀ p : ℚ, st.position = some p → 0 ≤ p ∧ p < st.spr

end SampleHolderController

deriving instance DecidableEq for Except

open ArduinoController SampleHolderController

/-- C10: for every protocol client constructed with baud rate `b` and
timeout `t`, reading the public `timeout` property returns the stored
baud rate `b`, not the configured timeout `t`; in particular whenever
`b` differs from `t`, the `timeout` getter does not return the value the
`timeout` setter stored. -/
theorem C10_timeout_returns_baud (p : String) (b t : Int) :
    timeout_property (mkController p b t) = b ∧
    (b ≠ t → timeout_property (set_timeout (mkController p b t) t) ≠ t) := by
  exact ⟨rfl, fun h => h⟩

/-- Witness for C10 at the controller's default configuration
`baud = 9600`, `timeout = 10`. -/
theorem C10_timeout_returns_baud_witness :
    timeout_property (set_timeout (mkController "COM4" 9600 10) 10) ≠ 10 :=
  (C10_timeout_returns_baud "COM4" 9600 10).2 (by decide)

/-- C6: for every command invocation whose decoded response has status
`error`, `run` fails with a command error naming the echoed command;
otherwise it returns the pair of `response` and `id` when both keys are
present, the value of whichever of the two keys is present when exactly
one is, and no value when neither is present. -/
theorem C6_run_result_cases {α : Type} (resp : DecodedResponse α) :
    (resp.status = "error" →
      run_result resp = .error ("Command failed: " ++ resp.command)) ∧
    (resp.status ≠ "error" →
      (∀ r i, resp.response = some r → resp.id = some i →
        run_result resp = .ok (.both r i)) ∧
      (∀ r, resp.response = some r → resp.id = none →
        run_result resp = .ok (.single r)) ∧
      (∀ i, resp.response = none → resp.id = some i →
        run_result resp = .ok (.single i)) ∧
      (resp.response = none → resp.id = none →
        run_result resp = .ok .nothing)) := by
  unfold run_result
  refine ⟨fun h => by simp [h], fun h => ⟨?_, ?_, ?_, ?_⟩⟩ <;>
    intros <;> simp_all

/-- Witness for C6: an `ok` response carrying only a `response` payload
returns that payload alone. -/
theorem C6_run_result_cases_witness :
    run_result (⟨"ok", "get_pos", some 120, none⟩ : DecodedResponse Nat) =
      .ok (.single 120) :=
  ((C6_run_result_cases ⟨"ok", "get_pos", some 120, none⟩).2 (by decide)).2.1
    120 rfl rfl

/-- C7 (amended): on a state the firmware reports as not enabled, `move`
raises the not-enabled error before issuing the `move` command itself,
but only after performing one protocol invocation — the `is_enabled`
status query, which does write to and read from the device channel. -/
theorem C7_move_not_enabled (env : Env) (henv : env.enabled = false)
    (steps : ℚ) (st : SampleHolder) :
    move env steps st = (.error .notEnabled, [.isEnabledCmd]) := by
  unfold move is_enabled
  simp [henv]

/-- Witness for C7's amended theorem on a disabled environment. -/
theorem C7_move_not_enabled_witness :
    move ⟨false, 0⟩ 5 ⟨10, 200, some 0⟩ = (.error .notEnabled, [.isEnabledCmd]) :=
  C7_move_not_enabled ⟨false, 0⟩ rfl 5 ⟨10, 200, some 0⟩

/-- Counterexample to C7 as stated: with the motor disabled, `move 5`
does raise the not-enabled error, yet its protocol trace is non-empty —
the `is_enabled` query was invoked, which writes the framed command to
the channel and performs response reads, so the error is not raised
"before any I/O occurs". -/
theorem C7_counterexample :
    (move ⟨false, 0⟩ 5 ⟨10, 200, some 0⟩).1 = .error .notEnabled ∧
    (move ⟨false, 0⟩ 5 ⟨10, 200, some 0⟩).2 ≠ [] := by
  decide

/-- C5: from an enabled state with known position `p`, `offset num`
first performs `move num` (moving the software position to
`(p + num) mod SPR`), then invokes the firmware `offset` command with
argument `-num`, and finally restores the software position to `p`, so
a successful `offset` leaves the motor position field unchanged. -/
theorem C5_offset_restores_position (env : Env) (henv : env.enabled = true)
    (num p : ℚ) (st : SampleHolder) (hpos : st.position = some p) :
    offset env num st =
      (.ok { st with position := some p },
       [.isEnabledCmd, .moveCmd num, .offsetCmd (-num)]) ∧
    (move env num st).1 =
      .ok { st with position := some (pymod (p + num) st.spr) } := by
  unfold offset move is_enabled
  simp only [henv, hpos]
  constructor
  · simp [← hpos]
  · simp

unseal Rat.add Rat.sub Rat.mul Rat.inv in
/-- Witness for C5: `offset 15` at position 50 (SPR 200) issues
`is_enabled`, `move 15`, `offset -15` and ends at position 50, while the
intermediate `move 15` takes the position to 65. -/
theorem C5_offset_restores_position_witness :
    offset ⟨true, 0⟩ 15 ⟨10, 200, some 50⟩ =
      (.ok ⟨10, 200, some 50⟩,
       [.isEnabledCmd, .moveCmd 15, .offsetCmd (-15)]) ∧
    (move ⟨true, 0⟩ 15 ⟨10, 200, some 50⟩).1 =
      .ok ⟨10, 200, some (pymod (50 + 15) 200)⟩ ∧
    pymod (50 + 15) 200 = 65 :=
  ⟨(C5_offset_restores_position ⟨true, 0⟩ rfl 15 50 ⟨10, 200, some 50⟩ rfl).1,
   (C5_offset_restores_position ⟨true, 0⟩ rfl 15 50 ⟨10, 200, some 50⟩ rfl).2,
   by decide⟩

unseal Rat.add Rat.sub Rat.mul Rat.inv in
/-- Counterexample to C1 as stated: at position 195 with `SPR = 200` and
`sample_count = 10`, the `sample` property evaluates to 10 — the source
applies no final `mod sample_count` — while the claim's formula
`floor((195 + 10) / 20) mod 10` evaluates to 0; in particular the
property's value does not lie in `[0, sample_count)`. -/
theorem C1_counterexample :
    sampleIdx 195 200 10 = 10 ∧ sampleIdxSpec 195 200 10 = 0 ∧
    ¬ sampleIdx 195 200 10 < 10 := by
  decide

/-- C1 (amended): the `sample` property computes
`floor((position + sector_width/2) / sector_width)` with no final
`mod sample_count`; for a position in `[0, SPR)` its value lies in the
closed range `[0, sample_count]` (the value `sample_count` is reached
for positions within half a sector below `SPR`), and reducing it
`mod sample_count` recovers the specification's formula. -/
theorem C1_sample_index_range (p spr : ℚ) (samples : Int)
    (hs : 0 < samples) (hspr : 0 < spr) (hp0 : 0 ≤ p) (hp1 : p < spr) :
    0 ≤ sampleIdx p spr samples ∧ sampleIdx p spr samples ≤ samples ∧
    sampleIdx p spr samples % samples = sampleIdxSpec p spr samples := by
  have hsq : (0 : ℚ) < (samples : ℚ) := by exact_mod_cast hs
  have hw : 0 < spr / (samples : ℚ) := div_pos hspr hsq
  refine ⟨?_, ?_, rfl⟩
  · unfold sampleIdx
    refine Int.floor_nonneg.mpr (le_of_lt ?_)
    positivity
  · unfold sampleIdx
    have hsprw : spr = (samples : ℚ) * (spr / (samples : ℚ)) :=
      (mul_div_cancel₀ spr (ne_of_gt hsq)).symm
    have harg : (p + spr / (samples : ℚ) / 2) / (spr / (samples : ℚ))
        < ((samples + 1 : Int) : ℚ) := by
      rw [div_lt_iff₀ hw]
      push_cast
      nlinarith [hw, hp1, hsprw]
    have := Int.floor_lt.mpr harg
    omega

unseal Rat.add Rat.sub Rat.mul Rat.inv in
/-- Witness for C1's amended theorem at position 30, SPR 200,
10 samples: the derived index is in range. -/
theorem C1_sample_index_range_witness :
    0 ≤ sampleIdx 30 200 10 ∧ sampleIdx 30 200 10 ≤ 10 ∧
    sampleIdx 30 200 10 % 10 = sampleIdxSpec 30 200 10 :=
  C1_sample_index_range 30 200 10 (by decide) (by decide) (by decide) (by decide)

/-- C4: `goto num` computes `d = (num - current_sample) mod samples`,
replaces `d` by `d - samples` when `d > samples / 2`, and delegates
`step d`; the selected distance always satisfies `|d| ≤ samples / 2`
(stated integrally as `2 * |d| ≤ samples`, which is equivalent over ℚ),
for every integer current sample and target and every positive sample
count, even or odd; in particular `goto 8` from current sample 2 with 10
samples issues `step (-4)`. -/
theorem C4_goto_shortest_path (cur num m : Int) (hm : 0 < m) :
    2 * |gotoSteps cur num m| ≤ m ∧ gotoSteps 2 8 10 = -4 := by
  constructor
  · unfold gotoSteps
    have h0 : 0 ≤ (num - cur) % m := Int.emod_nonneg _ (by omega)
    have h1 : (num - cur) % m < m := Int.emod_lt_of_pos _ hm
    by_cases hc : (m : ℚ) / 2 < (((num - cur) % m : Int) : ℚ)
    · rw [if_pos hc]
      have h2 : (m : ℚ) < 2 * (((num - cur) % m : Int) : ℚ) := by
        rw [div_lt_iff₀ (by norm_num : (0:ℚ) < 2)] at hc
        linarith
      have h3 : m < 2 * ((num - cur) % m) := by exact_mod_cast h2
      rw [abs_of_nonpos (by omega)]
      omega
    · rw [if_neg hc]
      push_neg at hc
      have h2 : 2 * (((num - cur) % m : Int) : ℚ) ≤ (m : ℚ) := by
        have := (le_div_iff₀ (by norm_num : (0:ℚ) < 2)).mp hc
        linarith
      have h3 : 2 * ((num - cur) % m) ≤ m := by exact_mod_cast h2
      rw [abs_of_nonneg h0]
      omega
  · unfold gotoSteps
    norm_num

/-- Witness for C4 at the claim's example: from sample 2, target 8,
10 samples. -/
theorem C4_goto_shortest_path_witness :
    2 * |gotoSteps 2 8 10| ≤ 10 ∧ gotoSteps 2 8 10 = -4 :=
  C4_goto_shortest_path 2 8 10 (by decide)

/-- Draining the idle tail adds the remaining budget to both the attempt
counter and the read counter and leaves the buffer unchanged. -/
theorem readIdle_spec (rem : Nat) : ∀ resp att reads,
    readIdle rem resp att reads = (resp, att + rem, reads + rem) := by
  induction rem with
  | zero => intro resp att reads; simp [readIdle]
  | succ r ih =>
      intro resp att reads
      rw [readIdle, ih]
      simp only [Prod.mk.injEq]
      refine ⟨trivial, by omega, by omega⟩

/-- The read loop ends with the attempt counter at the limit exactly
when no `'}'` byte arrives before the remaining idle budget is spent. -/
theorem readLoop_attempts_eq (limit : Nat) (stream : List (Option Char)) :
    ∀ att resp reads, att ≤ limit →
      (((readLoop limit stream att resp reads).2.1 = limit) ↔
        hasCloseWithin (limit - att) stream = false) := by
  induction stream with
  | nil =>
      intro att resp reads hle
      rcases Nat.lt_or_ge att limit with h | h
      · obtain ⟨k, hk⟩ : ∃ k, limit - att = k + 1 := ⟨limit - att - 1, by omega⟩
        rw [readLoop, if_pos h, readIdle_spec, hk]
        simp [hasCloseWithin]
        omega
      · have hAtt : att = limit := by omega
        rw [readLoop, if_neg (by omega)]
        simp [hAtt, Nat.sub_self, hasCloseWithin]
  | cons hd rest ih =>
      intro att resp reads hle
      rcases Nat.lt_or_ge att limit with h | h
      · obtain ⟨k, hk⟩ : ∃ k, limit - att = k + 1 := ⟨limit - att - 1, by omega⟩
        cases hd with
        | none =>
            rw [readLoop, if_pos h, ih (att + 1) resp (reads + 1) (by omega), hk]
            have : limit - (att + 1) = k := by omega
            rw [this]
            simp [hasCloseWithin]
        | some c =>
            by_cases hc : c = '}'
            · subst hc
              rw [readLoop, if_pos h, if_pos rfl, hk]
              simp [hasCloseWithin]
              omega
            · rw [readLoop, if_pos h, if_neg hc,
                ih att (resp ++ [c]) (reads + 1) hle, hk]
              simp [hasCloseWithin, hc]
      · have hAtt : att = limit := by omega
        cases hd with
        | none =>
            rw [readLoop, if_neg (by omega)]
            simp [hAtt, Nat.sub_self, hasCloseWithin]
        | some c =>
            rw [readLoop, if_neg (by omega)]
            simp [hAtt, Nat.sub_self, hasCloseWithin]

/-- When the read loop times out (ends at the attempt limit), no `'}'`
byte was ever appended to its buffer. -/
theorem readLoop_error_noClose (limit : Nat) (stream : List (Option Char)) :
    ∀ att resp reads, '}' ∉ resp →
      (readLoop limit stream att resp reads).2.1 = limit →
      '}' ∉ (readLoop limit stream att resp reads).1 := by
  induction stream with
  | nil =>
      intro att resp reads hnc _
      rcases Nat.lt_or_ge att limit with h | h
      · rw [readLoop, if_pos h, readIdle_spec]
        exact hnc
      · rw [readLoop, if_neg (by omega)]
        exact hnc
  | cons hd rest ih =>
      intro att resp reads hnc hfin
      rcases Nat.lt_or_ge att limit with h | h
      · cases hd with
        | none =>
            rw [readLoop, if_pos h] at hfin ⊢
            exact ih (att + 1) resp (reads + 1) hnc hfin
        | some c =>
            by_cases hc : c = '}'
            · subst hc
              rw [readLoop, if_pos h, if_pos rfl] at hfin
              exact absurd (show att = limit from hfin) (by omega)
            · rw [readLoop, if_pos h, if_neg hc] at hfin ⊢
              refine ih att (resp ++ [c]) (reads + 1) ?_ hfin
              simp [hnc, hc]
              intro hmem
              exact absurd hmem.symm hc
      · cases hd with
        | none =>
            rw [readLoop, if_neg (by omega)]
            exact hnc
        | some c =>
            rw [readLoop, if_neg (by omega)]
            exact hnc

/-- A `read_response` cycle succeeds exactly when a `'}'` byte arrives
before the idle budget is spent. -/
theorem read_response_isOk_eq (limit : Nat) (stream : List (Option Char)) :
    (read_response limit stream).isOk = hasCloseWithin limit stream := by
  unfold read_response
  have h := readLoop_attempts_eq limit stream 0 [] 0 (Nat.zero_le _)
  rw [Nat.sub_zero] at h
  by_cases hc : (readLoop limit stream 0 [] 0).2.1 = limit
  · rw [if_pos hc, (h.mp hc)]
    rfl
  · rw [if_neg hc]
    rcases hb : hasCloseWithin limit stream with _ | _
    · exact absurd (h.mpr hb) hc
    · rfl

/-- C2 (amended): `read_response` reads one byte at a time, appending
each byte to the buffer, and succeeds as soon as a `'}'` byte is read
within the idle budget; it fails with the read-timeout error (carrying a
partial buffer that never contains `'}'`) exactly when the cumulative —
not necessarily consecutive — number of idle reads reaches
`read_attempts` before a `'}'` arrives (the idle counter is never reset
by a successful read); and on a channel that yields no byte on every
read it fails with an empty buffer after exactly `read_attempts` reads,
all idle. -/
theorem C2_read_timeout_cumulative (limit : Nat) (stream : List (Option Char)) :
    ((read_response limit stream).isOk = hasCloseWithin limit stream) ∧
    (∀ b, read_response limit stream = .error b →
      '}' ∉ b ∧ idleAttempts limit stream = limit) ∧
    (read_response limit [] = .error [] ∧ readsPerformed limit [] = limit) := by
  refine ⟨read_response_isOk_eq limit stream, ?_, ?_⟩
  · intro b hb
    unfold read_response at hb
    by_cases hc : (readLoop limit stream 0 [] 0).2.1 = limit
    · rw [if_pos hc] at hb
      have hb1 : (readLoop limit stream 0 [] 0).1 = b := by
        injection hb
      refine ⟨?_, hc⟩
      rw [← hb1]
      exact readLoop_error_noClose limit stream 0 [] 0 (by simp) hc
    · rw [if_neg hc] at hb
      exact absurd hb (by simp)
  · have hr : readLoop limit [] 0 [] 0 = ([], limit, limit) := by
      cases limit with
      | zero => rw [readLoop]; simp
      | succ n =>
          rw [readLoop, if_pos (by omega), readIdle_spec]
          simp
    constructor
    · unfold read_response
      rw [hr]
      simp
    · unfold readsPerformed
      rw [hr]

/-- Witness for C2's amended theorem: with `read_attempts = 3` and a
stream interleaving idle reads with data bytes, the timeout fires with
partial buffer `ab`, which contains no `'}'`, and the idle counter ends
at the limit. -/
theorem C2_read_timeout_cumulative_witness :
    '}' ∉ (['a', 'b'] : List Char) ∧
    idleAttempts 3 [none, some 'a', none, some 'b', none, some '}'] = 3 :=
  (C2_read_timeout_cumulative 3
    [none, some 'a', none, some 'b', none, some '}']).2.1 ['a', 'b'] (by decide)

/-- Counterexample to C2 as stated: with `read_attempts = 3` and the
read sequence idle, `'a'`, idle, `'b'`, idle, `'}'`, the call times out
with partial buffer `ab` after exactly 5 reads — the sixth read, which
would have delivered `'}'`, is never performed — even though no two
idle reads are even adjacent, so no 3 *consecutive* reads ever added
nothing to the buffer; the timeout is governed by the cumulative idle
count. -/
theorem C2_counterexample :
    read_response 3 [none, some 'a', none, some 'b', none, some '}'] =
      .error ['a', 'b'] ∧
    readsPerformed 3 [none, some 'a', none, some 'b', none, some '}'] = 5 ∧
    (([none, some 'a', none, some 'b', none, some '}'] :
        List (Option Char)).zip
      ([some 'a', none, some 'b', none, some '}'] :
        List (Option Char))).all
      (fun ab => ab.1.isSome || ab.2.isSome) = true := by
  decide

/-- A stream delivering one byte per read reaches a `'}'` byte before
any idle read, whatever the positive attempt budget. -/
theorem hasCloseWithin_all_bytes (limit : Nat) (bs : List Char) :
    0 < limit → '}' ∈ bs → hasCloseWithin limit (bs.map some) = true := by
  induction bs with
  | nil =>
      intro _ h
      simp at h
  | cons c rest ih =>
      intro hl hm
      obtain ⟨k, hk⟩ : ∃ k, limit = k + 1 := ⟨limit - 1, by omega⟩
      subst hk
      simp only [List.map]
      rw [hasCloseWithin]
      by_cases hc : c = '}'
      · rw [if_pos hc]
      · rw [if_neg hc]
        refine ih (by omega) ?_
        rcases List.mem_cons.mp hm with h | h
        · exact absurd h.symm hc
        · exact h

/-- C9: for every `read_attempts > 0`, if every read of the channel
yields exactly one byte of a response whose bytes contain a `'}'`, the
decode cycle never reaches the read-timeout branch: a gapless
byte-at-a-time response never times out. -/
theorem C9_gapless_response_never_times_out (limit : Nat) (bs : List Char)
    (hl : 0 < limit) (hb : '}' ∈ bs) :
    (read_response limit (bs.map some)).isOk = true := by
  rw [read_response_isOk_eq]
  exact hasCloseWithin_all_bytes limit bs hl hb

/-- Witness for C9: the two-byte response `{}` delivered gaplessly with
the default `read_attempts = 3` is decoded successfully. -/
theorem C9_gapless_response_never_times_out_witness :
    (read_response 3 ((['{', '}'] : List Char).map some)).isOk = true :=
  C9_gapless_response_never_times_out 3 ['{', '}'] (by decide) (by decide)

/-- Floor of a quotient of integer casts is integer (Euclidean)
division. -/
theorem floor_intCast_div_intCast_pos (a b : Int) (hb : 0 < b) :
    ⌊(a : ℚ) / (b : ℚ)⌋ = a / b := by
  have h1 : ((b.toNat : ℕ) : ℤ) = b := Int.toNat_of_nonneg (le_of_lt hb)
  rw [← h1, Int.cast_natCast]
  exact Rat.floor_intCast_div_natCast a b.toNat

/-- Adding one half to an integer cast floors back to the integer. -/
theorem floor_intCast_add_half (k : Int) : ⌊(k : ℚ) + 1 / 2⌋ = k := by
  have h0 : ⌊(1 / 2 : ℚ)⌋ = 0 :=
    Int.floor_eq_iff.mpr (by norm_num)
  rw [Int.floor_int_add, h0, add_zero]

/-- The derived sample index of a position that is an exact multiple of
the sector width `W`, with `SPR = samples * W`, is that multiple. -/
theorem sampleIdx_int_mul (k m : Int) (W : ℚ) (hW : 0 < W) (hm : 0 < m) :
    sampleIdx ((k : ℚ) * W) ((m : ℚ) * W) m = k := by
  unfold sampleIdx
  have hmq : ((m : ℚ)) ≠ 0 := by
    have : (0 : ℚ) < (m : ℚ) := by exact_mod_cast hm
    exact this.ne'
  rw [mul_div_cancel_left₀ W hmq]
  have h2 : ((k : ℚ) * W + W / 2) / W = (k : ℚ) + 1 / 2 := by
    field_simp
    ring
  rw [h2, floor_intCast_add_half]

/-- Python's rational `%` on exact multiples of a common factor `W`
computes the integer remainder times `W`. -/
theorem pymod_intCast_mul (a m : Int) (W : ℚ) (hW : 0 < W) (hm : 0 < m) :
    pymod ((a : ℚ) * W) ((m : ℚ) * W) = ((a % m : Int) : ℚ) * W := by
  unfold pymod
  have hWne : W ≠ 0 := hW.ne'
  rw [mul_div_mul_right _ _ hWne, floor_intCast_div_intCast_pos a m hm]
  push_cast [Int.emod_def]
  ring

/-- The step distance selected by `goto` reaches the target sample
modulo the sample count. -/
theorem gotoSteps_add_emod (cur num m : Int) :
    (cur + gotoSteps cur num m) % m = num % m := by
  have key : ∀ x : Int, (cur + x % m) % m = (cur + x) % m := by
    intro x
    conv_lhs => rw [Int.add_emod, Int.emod_emod_of_dvd x dvd_rfl, ← Int.add_emod]
  unfold gotoSteps
  by_cases hc : (m : ℚ) / 2 < (((num - cur) % m : Int) : ℚ)
  · rw [if_pos hc]
    have h1 : cur + ((num - cur) % m - m) =
        cur + (num - cur) % m + m * (-1) := by ring
    rw [h1, Int.add_mul_emod_self_left, key, show cur + (num - cur) = num from by ring]
  · rw [if_neg hc]
    rw [key, show cur + (num - cur) = num from by ring]

/-- C3 (amended): for every target sample `n` in `[0, sample_count)`
(excluding the boundary value `n = sample_count`, which `goto` also
accepts) and every enabled state whose position is an exact sample
multiple `k * W` of the integral sector width `W = SPR / sample_count`
with `k` in `[0, sample_count)`, a successful `goto n` moves the
position to `n * W` and the derived sample index then equals `n`. -/
theorem C3_goto_round_trip (env : Env) (henv : env.enabled = true)
    (W k n m : Int) (hW : 0 < W) (hm : 0 < m)
    (hk0 : 0 ≤ k) (hk1 : k < m) (hn0 : 0 ≤ n) (hn1 : n < m)
    (st : SampleHolder) (hsam : st.samples = m)
    (hspr : st.spr = (m : ℚ) * (W : ℚ))
    (hpos : st.position = some ((k : ℚ) * (W : ℚ))) :
    (goto env n st).1 = .ok { st with position := some ((n : ℚ) * (W : ℚ)) } ∧
    sample { st with position := some ((n : ℚ) * (W : ℚ)) } = some n := by
  have hWq : (0 : ℚ) < (W : ℚ) := by exact_mod_cast hW
  have hmq : ((m : ℚ)) ≠ 0 := by
    have : (0 : ℚ) < (m : ℚ) := by exact_mod_cast hm
    exact this.ne'
  have hcur : sample st = some k := by
    unfold sample
    rw [hpos]
    show some (sampleIdx ((k : ℚ) * (W : ℚ)) st.spr st.samples) = some k
    rw [hspr, hsam, sampleIdx_int_mul k m (W : ℚ) hWq hm]
  have hd : (k + gotoSteps k n m) % m = n := by
    rw [gotoSteps_add_emod, Int.emod_eq_of_lt hn0 hn1]
  constructor
  · unfold goto
    rw [hsam]
    rw [if_neg (by omega)]
    rw [hcur]
    unfold step move is_enabled
    simp only [henv, Bool.true_eq_false, if_false, hpos, hsam, hspr]
    rw [mul_div_cancel_left₀ (W : ℚ) hmq]
    have harg : (k : ℚ) * (W : ℚ) + ((gotoSteps k n m : Int) : ℚ) * (W : ℚ)
        = (((k + gotoSteps k n m : Int)) : ℚ) * (W : ℚ) := by
      push_cast
      ring
    rw [harg, pymod_intCast_mul _ m (W : ℚ) hWq hm, hd]
  · show some (sampleIdx ((n : ℚ) * (W : ℚ)) st.spr st.samples) = some n
    rw [hspr, hsam, sampleIdx_int_mul n m (W : ℚ) hWq hm]

unseal Rat.add Rat.sub Rat.mul Rat.inv in
/-- Witness for C3's amended theorem: `goto 3` from sample 1 (position
20, SPR 200, 10 samples) lands on position 60 with derived sample 3. -/
theorem C3_goto_round_trip_witness :
    (goto ⟨true, 0⟩ 3 ⟨10, 200, some ((1 : Int) * (20 : Int) : ℚ)⟩).1 =
      .ok ⟨10, 200, some (((3 : Int) : ℚ) * ((20 : Int) : ℚ))⟩ ∧
    sample ⟨10, 200, some (((3 : Int) : ℚ) * ((20 : Int) : ℚ))⟩ = some 3 := by
  have h := C3_goto_round_trip ⟨true, 0⟩ rfl 20 1 3 10 (by decide) (by decide)
    (by decide) (by decide) (by decide) (by decide)
    ⟨10, 200, some (((1 : Int) : ℚ) * ((20 : Int) : ℚ))⟩ rfl (by norm_num) rfl
  exact_mod_cast h

unseal Rat.add Rat.sub Rat.mul Rat.inv in
/-- Counterexample to C3 as stated: the claim admits every `n` in the
closed range `[0, sample_count]`, but `goto sample_count` from sample 0
computes distance `(10 - 0) mod 10 = 0`, does not move, and leaves the
derived sample index at 0, not `sample_count = 10`. -/
theorem C3_counterexample :
    (goto ⟨true, 0⟩ 10 ⟨10, 200, some 0⟩).1 = .ok ⟨10, 200, some 0⟩ ∧
    sample (⟨10, 200, some 0⟩ : SampleHolder) = some 0 ∧
    sample (⟨10, 200, some 0⟩ : SampleHolder) ≠ some 10 := by
  decide

/-- Python's positive-modulus `%` lands in `[0, y)`. -/
theorem pymod_mem_Ico (x y : ℚ) (hy : 0 < y) : 0 ≤ pymod x y ∧ pymod x y < y := by
  unfold pymod
  constructor
  · have h := Int.floor_le (x / y)
    have h2 : y * ((⌊x / y⌋ : Int) : ℚ) ≤ y * (x / y) :=
      mul_le_mul_of_nonneg_left h (le_of_lt hy)
    rw [mul_div_cancel₀ x hy.ne'] at h2
    linarith
  · have h := Int.lt_floor_add_one (x / y)
    have h2 : x < (((⌊x / y⌋ : Int) : ℚ) + 1) * y := (div_lt_iff₀ hy).mp h
    nlinarith

/-- A successful `move` starts from a known position and lands on the
Python-mod of the shifted position; all other state fields are kept. -/
theorem move_ok_shape (env : Env) (s : ℚ) (st st1 : SampleHolder)
    (h : (move env s st).1 = .ok st1) :
    ∃ p, st.position = some p ∧
      st1 = { st with position := some (pymod (p + s) st.spr) } := by
  unfold move is_enabled at h
  by_cases he : env.enabled
  · cases hp : st.position with
    | none =>
        rw [hp] at h
        simp [he] at h
    | some p =>
        rw [hp] at h
        simp only [he, Bool.true_eq_false, if_false] at h
        simp at h
        exact ⟨p, rfl, h.symm⟩
  · simp only [Bool.not_eq_true] at he
    simp [he] at h

/-- Every successful controller operation preserves the position-range
invariant and never changes SPR or the sample count (given a device
that reports an in-range position to `get_pos`). -/
theorem runOp_preserves (env : Env) (op : Op) (st st1 : SampleHolder)
    (hr0 : 0 ≤ env.reportedPos) (hr1 : env.reportedPos < st.spr)
    (hinv : PosInv st) (h : (runOp env op st).1 = .ok st1) :
    PosInv st1 ∧ st1.spr = st.spr ∧ st1.samples = st.samples := by
  obtain ⟨hs, hspr, hpos⟩ := hinv
  cases op with
  | enableOp =>
      simp only [runOp] at h
      unfold enable at h
      simp only [Except.ok.injEq] at h
      subst h
      refine ⟨⟨hs, hspr, fun q hq => ?_⟩, rfl, rfl⟩
      simp only [Option.some.injEq] at hq
      subst hq
      exact ⟨hr0, hr1⟩
  | homeOp =>
      simp only [runOp] at h
      unfold home at h
      simp only [Except.ok.injEq] at h
      subst h
      refine ⟨⟨hs, hspr, fun q hq => ?_⟩, rfl, rfl⟩
      simp only [Option.some.injEq] at hq
      subst hq
      exact ⟨le_refl 0, hspr⟩
  | moveOp s =>
      simp only [runOp] at h
      obtain ⟨p, hp, hsh⟩ := move_ok_shape env s st st1 h
      subst hsh
      have hb := pymod_mem_Ico (p + s) st.spr hspr
      refine ⟨⟨hs, hspr, fun q hq => ?_⟩, rfl, rfl⟩
      simp only [Option.some.injEq] at hq
      subst hq
      exact hb
  | stepOp n =>
      simp only [runOp] at h
      unfold step at h
      obtain ⟨p, hp, hsh⟩ :=
        move_ok_shape env (n * (st.spr / (st.samples : ℚ))) st st1 h
      subst hsh
      have hb := pymod_mem_Ico (p + n * (st.spr / (st.samples : ℚ))) st.spr hspr
      refine ⟨⟨hs, hspr, fun q hq => ?_⟩, rfl, rfl⟩
      simp only [Option.some.injEq] at hq
      subst hq
      exact hb
  | gotoOp n =>
      simp only [runOp] at h
      unfold goto at h
      by_cases hv : n < 0 ∨ st.samples < n
      · rw [if_pos hv] at h
        simp at h
      · rw [if_neg hv] at h
        cases hcur : sample st with
        | none =>
            rw [hcur] at h
            simp at h
        | some cur =>
            rw [hcur] at h
            unfold step at h
            obtain ⟨p, hp, hsh⟩ :=
              move_ok_shape env
                (((gotoSteps cur n st.samples : Int) : ℚ) *
                  (st.spr / (st.samples : ℚ))) st st1 h
            subst hsh
            have hb := pymod_mem_Ico
              (p + ((gotoSteps cur n st.samples : Int) : ℚ) *
                (st.spr / (st.samples : ℚ))) st.spr hspr
            refine ⟨⟨hs, hspr, fun q hq => ?_⟩, rfl, rfl⟩
            simp only [Option.some.injEq] at hq
            subst hq
            exact hb
  | offsetOp n =>
      simp only [runOp] at h
      unfold offset at h
      rcases hmv : move env n st with ⟨res, tr⟩
      rw [hmv] at h
      cases res with
      | error e => simp at h
      | ok st2 =>
          simp only [Except.ok.injEq] at h
          subst h
          have hok : (move env n st).1 = .ok st2 := by rw [hmv]
          obtain ⟨p, hp, hshape⟩ := move_ok_shape env n st st2 hok
          subst hshape
          refine ⟨⟨hs, hspr, fun q hq => ?_⟩, rfl, rfl⟩
          simp only at hq
          exact hpos q hq

/-- C8 (amended): for SPR > 0 and sample_count > 0, every sequence of
successful `enable`, `home`, `move`, `step`, `goto`, `offset` operations
keeps the motor position, whenever known, inside `[0, SPR)` — provided
the position the device reports to `enable`'s `get_pos` query is itself
in range, since the code adopts it unchecked; integrality, however, is
not preserved in general (see the counterexample: `step` adds
`num * SPR / sample_count`, which is a non-integral rational whenever
`sample_count` does not divide `num * SPR`). -/
theorem C8_position_range (env : Env) (ops : List Op) (st st1 : SampleHolder)
    (hr0 : 0 ≤ env.reportedPos) (hr1 : env.reportedPos < st.spr)
    (hinv : PosInv st) (h : runOps env ops st = .ok st1) :
    PosInv st1 := by
  induction ops generalizing st with
  | nil =>
      unfold runOps at h
      simp only [Except.ok.injEq] at h
      subst h
      exact hinv
  | cons op rest ih =>
      unfold runOps at h
      cases hop : (runOp env op st).1 with
      | error e =>
          rw [hop] at h
          simp at h
      | ok st2 =>
          rw [hop] at h
          obtain ⟨hinv2, hspr2, _⟩ :=
            runOp_preserves env op st st2 hr0 hr1 hinv hop
          exact ih st2 (hspr2 ▸ hr1) hinv2 h

unseal Rat.add Rat.sub Rat.mul Rat.inv in
/-- Witness for C8's amended theorem: starting from position 0 (SPR 200,
10 samples) with a device reporting position 5, the successful sequence
`home; move 30; goto 3; offset 7; enable; step 1` ends at position 25,
which satisfies the range invariant. -/
theorem C8_position_range_witness :
    PosInv ⟨10, 200, some 25⟩ :=
  C8_position_range ⟨true, 5⟩
    [.homeOp, .moveOp 30, .gotoOp 3, .offsetOp 7, .enableOp, .stepOp 1]
    ⟨10, 200, some 0⟩ ⟨10, 200, some 25⟩
    (by norm_num) (by norm_num)
    ⟨by norm_num, by norm_num, fun p hp => by
      simp only [Option.some.injEq] at hp
      subst hp
      norm_num⟩
    (by decide)

unseal Rat.add Rat.sub Rat.mul Rat.inv in
/-- Counterexample to C8 as stated: with `SPR = 200` and
`sample_count = 3` (both positive), a successful `step 1` from position
0 moves the software position to `200/3`, which is not an integer (its
reduced denominator is 3), so the claim that every mutating operation
keeps the position integral fails. -/
theorem C8_counterexample :
    (step ⟨true, 0⟩ 1 ⟨3, 200, some 0⟩).1 = .ok ⟨3, 200, some (200 / 3)⟩ ∧
    ((200 : ℚ) / 3).den ≠ 1 := by
  decide
